import Mathlib

/-!
Verification of the band-region geometry engine of `bandplotter.py`:
the gap-region clipper (`add_band_gap_rectangle`), the continuum overlap
resolver (`add_continuum_bands`), and the Euclidean x-axis mapping
(`_calc_corrected_x_values`).  Frequencies and x-positions are embedded
as exact rationals (reals for the square-root-based axis mapping).
-/

/-- A 2-D vertex `(x, y)` as handed to the rendering collaborator. -/
abbrev Point : Type := ℚ × ℚ

/-- An ordered vertex list describing one closed polygon. -/
abbrev Polygon : Type := List Point

/-- Modelled from the spec: `utility.get_intersection_knum` is not under
`src/`; the spec defines `crossing_fraction(y0, y1, target)` as
`t = (target - y0) / (y1 - y0)`, the fraction at which the linear
interpolation from `y0` to `y1` reaches `target`. -/
def get_intersection_knum (y0 y1 target : ℚ) : ℚ :=
  (target - y0) / (y1 - y0)

/-- Modelled from the spec: `utility.get_intersection` is not under
`src/`; the spec defines `segment_intersection` of two linear segments
over the unit k-interval, returning the fractional position and the
frequency where the two lines cross, solved analytically from the two
line equations. -/
def get_intersection (freq_left1 freq_right1 freq_left2 freq_right2 : ℚ) : ℚ × ℚ :=
  let t := (freq_left2 - freq_left1) /
    ((freq_right1 - freq_left1) - (freq_right2 - freq_left2))
  (t, freq_left1 + t * (freq_right1 - freq_left1))

/-- Python's `min` over a sequence (`min(self._x_data)`); result for an
empty list is irrelevant to any claim (Python would raise there). -/
def listMin : List ℚ → ℚ
  | [] => 0
  | x :: xs => xs.foldl min x

/-- Python's `max` over a sequence (`max(self._x_data)`). -/
def listMax : List ℚ → ℚ
  | [] => 0
  | x :: xs => xs.foldl max x

/-- Function `add_filled_polygon`: the geometry-relevant behaviour of the drawing
helper is that an empty vertex list is a no-op (`if len(points) == 0:
return`) and a non-empty one emits exactly that polygon. -/
def add_filled_polygon (points : List Point) : List Polygon :=
  if points.isEmpty then [] else [points]

/-- The sweep state of the light-line branch of `add_band_gap_rectangle`:
the `above` / `below` flags of the last visited sample, the vertex list
of the polygon under construction, and the polygons emitted so far. -/
structure GapState where
  above : Bool
  below : Bool
  points : List Point
  polys : List Polygon
deriving DecidableEq

/-- One iteration of the `for i in range(1, len(light_line))` loop of
`add_band_gap_rectangle`: `(x0, l0)` is the previous sample,
`(x1, l1)` the current one. -/
def gap_step (from_freq to_freq x0 l0 x1 l1 : ℚ) (s : GapState) : GapState :=
  let xd := x1 - x0
  let above := decide (l1 ≥ to_freq)
  let below := decide (l1 ≤ from_freq)
  let pts1 :=
    if s.above && !above then
      s.points ++ [(x0 + xd * get_intersection_knum l0 l1 to_freq, to_freq)]
    else if s.below && !below then
      s.points ++ [(x0 + xd * get_intersection_knum l0 l1 from_freq, from_freq)]
    else s.points
  if !above && !below then
    { above := above, below := below, points := pts1 ++ [(x1, l1)], polys := s.polys }
  else if !s.above && above then
    { above := above, below := below,
      points := pts1 ++ [(x0 + xd * get_intersection_knum l0 l1 to_freq, to_freq)],
      polys := s.polys }
  else if !s.below && below then
    { above := above, below := below, points := [],
      polys := s.polys ++ add_filled_polygon
        (pts1 ++ [(x0 + xd * get_intersection_knum l0 l1 from_freq, from_freq)]) }
  else
    { above := above, below := below, points := pts1, polys := s.polys }

/-- The whole sweep: `(x0, l0)` is the sample last visited, `rest` the
remaining `(x, light_line)` pairs. -/
def gap_sweep (from_freq to_freq : ℚ) : ℚ → ℚ → List (ℚ × ℚ) → GapState → GapState
  | _, _, [], s => s
  | x0, l0, (x1, l1) :: rest, s =>
      gap_sweep from_freq to_freq x1 l1 rest (gap_step from_freq to_freq x0 l0 x1 l1 s)

/-- Method `BandPlotter.add_band_gap_rectangle`, as the list of polygons it hands
to `add_filled_polygon`.  `x_data` is the subplot's k-axis
(`self._x_data`); `light_line` is optional, exactly as in the source. -/
def add_band_gap_rectangle (x_data : List ℚ) (from_freq to_freq : ℚ)
    (light_line : Option (List ℚ)) : List Polygon :=
  if from_freq < 0 ∨ to_freq ≤ 0 then []
  else
    let left := listMin x_data
    let right := listMax x_data
    match light_line with
    | none =>
        add_filled_polygon
          [(left, from_freq), (right, from_freq), (right, to_freq), (left, to_freq)]
    | some ll =>
        match x_data, ll with
        | x0 :: xs, l0 :: ls =>
            let above := decide (l0 ≥ to_freq)
            let below := decide (l0 ≤ from_freq)
            let pts0 : List Point :=
              if below then []
              else [(x0, from_freq), if above then (x0, to_freq) else (x0, l0)]
            let s := gap_sweep from_freq to_freq x0 l0 (xs.zip ls)
              { above := above, below := below, points := pts0, polys := [] }
            let pts1 := if s.above then s.points ++ [(right, to_freq)] else s.points
            let pts2 := if s.below then pts1 else pts1 ++ [(right, from_freq)]
            s.polys ++ add_filled_polygon pts2
        | _, _ => []

/-- One recorded intersection point of `add_continuum_bands`:
`(ribbon index b, fractional k-position, frequency)`. -/
abbrev IPoint : Type := ℕ × ℚ × ℚ

/-- Lookup `data[k, j]` on one row of the continuum data table. -/
def row_get (row : List ℚ) (j : ℕ) : ℚ := row.getD j 0

/-- The `for k in range(numk)` loop of the overlap-prevention pass of
`add_continuum_bands`, from `k = 1` on: `prev_row` is the table row at
`k - 1` (as currently stored), `prev_above` and `prev_f` the carried
state, and `b` the upper ribbon's index.  Returns the updated rows from
`k` on together with the intersection points recorded there. -/
def conti_pass_rest (b : ℕ) : ℕ → List ℚ → List (List ℚ) → Bool → ℚ →
    List (List ℚ) × List IPoint
  | _, _, [], _, _ => ([], [])
  | k, prev_row, row :: rest, prev_above, prev_f =>
      if row_get row (2 * b) < row_get row (2 * b - 1) then
        let ipts0 : List IPoint :=
          if prev_above then
            let ipt := get_intersection prev_f (row_get row (2 * b))
              (row_get prev_row (2 * b - 1)) (row_get row (2 * b - 1))
            [(b, ipt.1 + (k : ℚ) - 1, ipt.2)]
          else []
        let row2 := row.set (2 * b) (row_get row (2 * b - 1))
        let res := conti_pass_rest b (k + 1) row2 rest false (row_get row (2 * b))
        (row2 :: res.1, ipts0 ++ res.2)
      else
        let ipts0 : List IPoint :=
          if !prev_above then
            let ipt := get_intersection prev_f (row_get row (2 * b))
              (row_get prev_row (2 * b - 1)) (row_get row (2 * b - 1))
            [(b, ipt.1 + (k : ℚ) - 1, ipt.2)]
          else []
        let res := conti_pass_rest b (k + 1) row rest true (row_get row (2 * b))
        (row :: res.1, ipts0 ++ res.2)

/-- The overlap-prevention pass for one adjacent ribbon pair
(`b` against `b - 1`): the `k = 0` iteration (where the `k != 0` guards
suppress any intersection) followed by `conti_pass_rest`. -/
def conti_pass_band (b : ℕ) : List (List ℚ) → List (List ℚ) × List IPoint
  | [] => ([], [])
  | row0 :: rest =>
      if row_get row0 (2 * b) < row_get row0 (2 * b - 1) then
        let row02 := row0.set (2 * b) (row_get row0 (2 * b - 1))
        let res := conti_pass_rest b 1 row02 rest false (row_get row0 (2 * b))
        (row02 :: res.1, res.2)
      else
        let res := conti_pass_rest b 1 row0 rest true (row_get row0 (2 * b))
        (row0 :: res.1, res.2)

/-- The `for b in range(1, numbands)` loop: resolve every adjacent ribbon
pair in order, threading the (mutated) data table and accumulating the
intersection-point list. -/
def conti_resolve (numbands : ℕ) (rows : List (List ℚ)) :
    List (List ℚ) × List IPoint :=
  (List.range' 1 (numbands - 1)).foldl
    (fun acc b =>
      let res := conti_pass_band b acc.1
      (res.1, acc.2 ++ res.2))
    (rows, [])

/-- The left-to-right walk along a ribbon's (clipped) lower curve,
splicing in the pending intersection points: at index `k`, every pending
`(ki, fi)` with `k > ki` is appended first (in the order Python's
reversed-index iteration with deletion produces: the reverse of their
list order), at the x-position
`x[k-1] * (k - ki) + x[k] * (ki - k + 1)`.  `prev_x` models
`self._x_data[k - 1]` (Python's `[-1]` wrap-around at `k = 0`). -/
def conti_lower_walk : ℕ → ℚ → List (ℚ × ℚ) → List (ℚ × ℚ) → List Point
  | _, _, _, [] => []
  | k, prev_x, ipts, (x, v) :: rest =>
      let add := (ipts.filter (fun p => (k : ℚ) > p.1)).reverse
      let spliced := add.map
        (fun p => (prev_x * ((k : ℚ) - p.1) + x * (p.1 - (k : ℚ) + 1), p.2))
      let keep := ipts.filter (fun p => ¬((k : ℚ) > p.1))
      spliced ++ (x, v) :: conti_lower_walk (k + 1) x keep rest

/-- The outcome of one `add_continuum_bands` call: whether the malformed-
input warning was logged, the polygons handed to `add_filled_polygon`,
and the data table after the call (the source clamps `data[k, 2b]` in
place). -/
structure ContiResult where
  warned : Bool
  polys : List Polygon
  data : List (List ℚ)

/-- Method `BandPlotter.add_continuum_bands`.  `rows` is the
`(numk, 2*numbands)` data table as a list of rows, `cols` its column
count (`data.shape[1]`, well-formed tables have every row of length
`cols`), `x_data` the subplot's k-axis. -/
def add_continuum_bands (x_data : List ℚ) (rows : List (List ℚ)) (cols : ℕ)
    (prevent_overlapping : Bool) : ContiResult :=
  let numk := x_data.length
  if ¬(rows.length = numk) ∨ ¬(cols % 2 = 0) then
    { warned := true, polys := [], data := rows }
  else
    let numbands := cols / 2
    let res :=
      if prevent_overlapping then conti_resolve numbands rows else (rows, [])
    let bandpolys := (List.range numbands).map (fun i =>
      let ipts_i :=
        ((res.2.filter (fun p => p.1 = i)).map (fun p => (p.2.1, p.2.2))).reverse
      let lowers := res.1.map (fun row => row_get row (2 * i))
      let uppers := res.1.map (fun row => row_get row (2 * i + 1))
      conti_lower_walk 0 (x_data.getLastD 0) ipts_i (x_data.zip lowers) ++
        (x_data.zip uppers).reverse)
    { warned := false,
      polys := bandpolys.foldl (fun acc pts => acc ++ add_filled_polygon pts) [],
      data := res.1 }

/-- Helper `point_distance` of `BandPlotter._calc_corrected_x_values`:
Euclidean distance of two k-vectors given as coordinate lists. -/
noncomputable def point_distance (p1 p2 : List ℝ) : ℝ :=
  Real.sqrt (((p2.zip p1).map (fun q => (q.1 - q.2) ^ 2)).sum)

/-- The accumulation loop of `_calc_corrected_x_values`:
`x[i + 1] = point_distance(vec[i], vec[i + 1]) + x[i]`. -/
noncomputable def corrected_x_rest : List ℝ → List (List ℝ) → ℝ → List ℝ
  | _, [], _ => []
  | p, v :: rest, a =>
      (point_distance p v + a) :: corrected_x_rest v rest (point_distance p v + a)

/-- Method `BandPlotter._calc_corrected_x_values`: cumulative Euclidean
k-distance, with the trailing magnitude column of `k_data` dropped
(`k_data[:, :-1]`) and `x[0] = 0`. -/
noncomputable def calc_corrected_x_values (k_data : List (List ℝ)) : List ℝ :=
  match k_data.map List.dropLast with
  | [] => []
  | v0 :: rest => 0 :: corrected_x_rest v0 rest 0

theorem foldl_min_of_le (xs : List ℚ) :
    ∀ x : ℚ, (∀ y ∈ xs, x ≤ y) → xs.foldl min x = x := by
  induction xs with
  | nil => intro x _; rfl
  | cons y ys ih =>
      intro x h
      have hxy : min x y = x := min_eq_left (h y (by simp))
      simp only [List.foldl_cons, hxy]
      exact ih x (fun z hz => h z (by simp [hz]))

theorem foldl_max_sorted (xs : List ℚ) :
    ∀ x : ℚ, List.Chain' (· ≤ ·) (x :: xs) →
      xs.foldl max x = (x :: xs).getLast (List.cons_ne_nil x xs) := by
  induction xs with
  | nil => intro x _; rfl
  | cons y ys ih =>
      intro x h
      rw [List.chain'_cons] at h
      have hxy : max x y = y := max_eq_right h.1
      simp only [List.foldl_cons, hxy]
      rw [ih y h.2]
      simp [List.getLast_cons]

theorem listMin_sorted (x : ℚ) (xs : List ℚ)
    (h : List.Chain' (· ≤ ·) (x :: xs)) : listMin (x :: xs) = x := by
  have hp := (List.chain'_iff_pairwise.mp h)
  exact foldl_min_of_le xs x (List.pairwise_cons.mp hp).1

theorem listMax_sorted (x : ℚ) (xs : List ℚ)
    (h : List.Chain' (· ≤ ·) (x :: xs)) :
    listMax (x :: xs) = (x :: xs).getLast (List.cons_ne_nil x xs) :=
  foldl_max_sorted xs x h

/-- C7: a degenerate gap (`from_freq < 0` or `to_freq ≤ 0`) makes
`add_band_gap_rectangle` return no polygon at all, for any k-axis and
any light line, as a silent no-op. -/
theorem degenerate_gap_noop (x_data : List ℚ) (from_freq to_freq : ℚ)
    (light_line : Option (List ℚ)) (h : from_freq < 0 ∨ to_freq ≤ 0) :
    add_band_gap_rectangle x_data from_freq to_freq light_line = [] := by
  simp [add_band_gap_rectangle, h]

/-- Witness for C7 at `from_freq = -1`, `to_freq = 3`. -/
theorem degenerate_gap_noop_witness :
    add_band_gap_rectangle [0, 1] (-1) 3 (some [2, 2]) = [] :=
  degenerate_gap_noop [0, 1] (-1) 3 (some [2, 2]) (Or.inl (by norm_num))

/-- C4: with `light_line = None` and valid bounds
`0 ≤ from_freq < to_freq`, `add_band_gap_rectangle` over a non-empty,
non-decreasing k-axis emits exactly the one rectangle with corners
`(first, from_freq), (last, from_freq), (last, to_freq),
(first, to_freq)`. -/
theorem rectangle_case (x_data : List ℚ) (hne : x_data ≠ [])
    (hsort : List.Chain' (· ≤ ·) x_data) (from_freq to_freq : ℚ)
    (h0 : 0 ≤ from_freq) (h1 : 0 < to_freq) (hlt : from_freq < to_freq) :
    add_band_gap_rectangle x_data from_freq to_freq none =
      [[(x_data.head hne, from_freq), (x_data.getLast hne, from_freq),
        (x_data.getLast hne, to_freq), (x_data.head hne, to_freq)]] := by
  obtain ⟨x, xs, rfl⟩ := List.exists_cons_of_ne_nil hne
  have hcond : ¬(from_freq < 0 ∨ to_freq ≤ 0) := by push_neg; exact ⟨h0, h1⟩
  simp only [add_band_gap_rectangle, if_neg hcond, add_filled_polygon,
    listMin_sorted x xs hsort, listMax_sorted x xs hsort]
  simp

/-- Witness for C4 on the axis `[0, 1]` with bounds `1 < 3`. -/
theorem rectangle_case_witness :
    add_band_gap_rectangle [0, 1] 1 3 none =
      [[(0, 1), (1, 1), (1, 3), (0, 3)]] := by
  simpa using rectangle_case [0, 1] (by simp) (by simp) 1 3 (by norm_num)
    (by norm_num) (by norm_num)

theorem gap_step_all_above (from_freq to_freq x0 l0 x1 l1 : ℚ)
    (hlt : from_freq < to_freq) (h : to_freq ≤ l1)
    (pts : List Point) (polys : List Polygon) :
    gap_step from_freq to_freq x0 l0 x1 l1 ⟨true, false, pts, polys⟩ =
      ⟨true, false, pts, polys⟩ := by
  have hb : ¬(l1 ≤ from_freq) := by linarith
  simp [gap_step, h, hb]

theorem gap_sweep_all_above (from_freq to_freq : ℚ) (hlt : from_freq < to_freq)
    (rest : List (ℚ × ℚ)) :
    ∀ (x0 l0 : ℚ) (pts : List Point) (polys : List Polygon),
      (∀ p ∈ rest, to_freq ≤ p.2) →
      gap_sweep from_freq to_freq x0 l0 rest ⟨true, false, pts, polys⟩ =
        ⟨true, false, pts, polys⟩ := by
  induction rest with
  | nil => intro x0 l0 pts polys _; rfl
  | cons q qs ih =>
      intro x0 l0 pts polys h
      obtain ⟨x1, l1⟩ := q
      rw [gap_sweep, gap_step_all_above from_freq to_freq x0 l0 x1 l1 hlt
        (h (x1, l1) (by simp))]
      exact ih x1 l1 pts polys (fun p hp => h p (by simp [hp]))

theorem gap_step_all_below (from_freq to_freq x0 l0 x1 l1 : ℚ)
    (hlt : from_freq < to_freq) (h : l1 ≤ from_freq) (polys : List Polygon) :
    gap_step from_freq to_freq x0 l0 x1 l1 ⟨false, true, [], polys⟩ =
      ⟨false, true, [], polys⟩ := by
  have ha : ¬(to_freq ≤ l1) := by linarith
  simp [gap_step, h, ha]

theorem gap_sweep_all_below (from_freq to_freq : ℚ) (hlt : from_freq < to_freq)
    (rest : List (ℚ × ℚ)) :
    ∀ (x0 l0 : ℚ) (polys : List Polygon),
      (∀ p ∈ rest, p.2 ≤ from_freq) →
      gap_sweep from_freq to_freq x0 l0 rest ⟨false, true, [], polys⟩ =
        ⟨false, true, [], polys⟩ := by
  induction rest with
  | nil => intro x0 l0 polys _; rfl
  | cons q qs ih =>
      intro x0 l0 polys h
      obtain ⟨x1, l1⟩ := q
      rw [gap_sweep, gap_step_all_below from_freq to_freq x0 l0 x1 l1 hlt
        (h (x1, l1) (by simp))]
      exact ih x1 l1 polys (fun p hp => h p (by simp [hp]))

/-- C1 counterexample: with `from_freq = 1`, `to_freq = 3` and the light
line `[3, 3]` (everywhere `≥ to_freq`), `add_band_gap_rectangle` does
not return the empty list — it emits the full rectangle. -/
theorem full_exclusion_cex :
    add_band_gap_rectangle [0, 1] 1 3 (some [3, 3]) ≠ [] := by
  have h : add_band_gap_rectangle [0, 1] 1 3 (some [3, 3]) =
      [[(0, 1), (0, 3), (1, 3), (1, 1)]] := by
    norm_num [add_band_gap_rectangle, gap_sweep, gap_step, get_intersection_knum,
      add_filled_polygon, listMin, listMax]
  rw [h]; simp

/-- C1 (amended): if `light_line[k] ≥ to_freq` at every k (with
`0 ≤ from_freq < to_freq`, a non-empty non-decreasing k-axis and one
light-line sample per k-position), `add_band_gap_rectangle` emits
exactly one polygon, the full unclipped rectangle traversed as
`(first, from_freq), (first, to_freq), (last, to_freq),
(last, from_freq)`: a light line entirely above the gap hides nothing,
because the code treats the region *above* the light line (not below it)
as forbidden. -/
theorem full_exclusion_amended (x_data ll : List ℚ) (hne : x_data ≠ [])
    (hlen : x_data.length = ll.length) (hsort : List.Chain' (· ≤ ·) x_data)
    (from_freq to_freq : ℚ) (h0 : 0 ≤ from_freq) (hlt : from_freq < to_freq)
    (habove : ∀ l ∈ ll, to_freq ≤ l) :
    add_band_gap_rectangle x_data from_freq to_freq (some ll) =
      [[(x_data.head hne, from_freq), (x_data.head hne, to_freq),
        (x_data.getLast hne, to_freq), (x_data.getLast hne, from_freq)]] := by
  obtain ⟨x, xs, rfl⟩ := List.exists_cons_of_ne_nil hne
  obtain ⟨l, ls, rfl⟩ : ∃ l ls, ll = l :: ls := by
    cases ll with
    | nil => simp at hlen
    | cons l ls => exact ⟨l, ls, rfl⟩
  have hcond : ¬(from_freq < 0 ∨ to_freq ≤ 0) := by
    push_neg; exact ⟨h0, by linarith⟩
  have ha0 : to_freq ≤ l := habove l (by simp)
  have hb0 : ¬(l ≤ from_freq) := by linarith
  have hrest : ∀ p ∈ xs.zip ls, to_freq ≤ p.2 := by
    intro p hp
    exact habove p.2 (by simp [(List.of_mem_zip hp).2])
  simp only [add_band_gap_rectangle, if_neg hcond, List.zip_cons_cons]
  norm_num [ha0, hb0]
  rw [gap_sweep_all_above from_freq to_freq hlt (xs.zip ls) x l _ _ hrest]
  simp [add_filled_polygon, listMax_sorted x xs hsort]

/-- Witness for C1 (amended): axis `[0, 1]`, light line `[3, 3]`,
gap `1..3`. -/
theorem full_exclusion_amended_witness :
    add_band_gap_rectangle [0, 1] 1 3 (some [3, 3]) =
      [[(0, 1), (0, 3), (1, 3), (1, 1)]] := by
  simpa using full_exclusion_amended [0, 1] [3, 3] (by simp) (by simp)
    (by simp) 1 3 (by norm_num) (by norm_num) (by norm_num)

/-- C2 counterexample: with `from_freq = 1`, `to_freq = 3` and the light
line `[0, 0]` (everywhere `≤ from_freq`), `add_band_gap_rectangle`
returns the empty list, which differs from the single unclipped
rectangle that the `light_line = None` call produces. -/
theorem full_inclusion_cex :
    add_band_gap_rectangle [0, 1] 1 3 (some [0, 0]) = [] ∧
      add_band_gap_rectangle [0, 1] 1 3 (some [0, 0]) ≠
        add_band_gap_rectangle [0, 1] 1 3 none := by
  have h : add_band_gap_rectangle [0, 1] 1 3 (some [0, 0]) = [] := by
    norm_num [add_band_gap_rectangle, gap_sweep, gap_step, get_intersection_knum,
      add_filled_polygon, listMin, listMax]
  have h2 : add_band_gap_rectangle [0, 1] 1 3 none =
      [[(0, 1), (1, 1), (1, 3), (0, 3)]] := by
    norm_num [add_band_gap_rectangle, add_filled_polygon, listMin, listMax]
  refine ⟨h, ?_⟩
  rw [h, h2]; simp

/-- C2 (amended): if `light_line[k] ≤ from_freq` at every k (with
`0 ≤ from_freq < to_freq` and one sample per k-position),
`add_band_gap_rectangle` emits no polygon at all: a light line entirely
beneath the gap hides the whole gap, because the code treats the region
*above* the light line as forbidden. -/
theorem full_inclusion_amended (x_data ll : List ℚ) (hne : x_data ≠ [])
    (hlen : x_data.length = ll.length)
    (from_freq to_freq : ℚ) (h0 : 0 ≤ from_freq) (hlt : from_freq < to_freq)
    (hbelow : ∀ l ∈ ll, l ≤ from_freq) :
    add_band_gap_rectangle x_data from_freq to_freq (some ll) = [] := by
  obtain ⟨x, xs, rfl⟩ := List.exists_cons_of_ne_nil hne
  obtain ⟨l, ls, rfl⟩ : ∃ l ls, ll = l :: ls := by
    cases ll with
    | nil => simp at hlen
    | cons l ls => exact ⟨l, ls, rfl⟩
  have hcond : ¬(from_freq < 0 ∨ to_freq ≤ 0) := by
    push_neg; exact ⟨h0, by linarith⟩
  have hb0 : l ≤ from_freq := hbelow l (by simp)
  have ha0 : ¬(to_freq ≤ l) := by linarith
  have hrest : ∀ p ∈ xs.zip ls, p.2 ≤ from_freq := by
    intro p hp
    exact hbelow p.2 (by simp [(List.of_mem_zip hp).2])
  simp only [add_band_gap_rectangle, if_neg hcond, List.zip_cons_cons]
  norm_num [ha0, hb0]
  rw [gap_sweep_all_below from_freq to_freq hlt (xs.zip ls) x l _ hrest]
  simp [add_filled_polygon]

/-- Witness for C2 (amended): axis `[0, 1]`, light line `[0, 0]`,
gap `1..3`. -/
theorem full_inclusion_amended_witness :
    add_band_gap_rectangle [0, 1] 1 3 (some [0, 0]) = [] :=
  full_inclusion_amended [0, 1] [0, 0] (by simp) (by simp) 1 3
    (by norm_num) (by norm_num) (by norm_num)

/-- C3 counterexample: on `k_axis = [0, 1, 2, 3, 4]`,
`from_freq = 1`, `to_freq = 3`, `light_line = [0, 0, 4, 0, 0]`, the
clipper does not emit two polygons. -/
theorem scenario_a_cex :
    (add_band_gap_rectangle [0, 1, 2, 3, 4] 1 3 (some [0, 0, 4, 0, 0])).length
      ≠ 2 := by
  have h : add_band_gap_rectangle [0, 1, 2, 3, 4] 1 3 (some [0, 0, 4, 0, 0]) =
      [[(5/4, 1), (7/4, 3), (9/4, 3), (11/4, 1)]] := by
    norm_num [add_band_gap_rectangle, gap_sweep, gap_step, get_intersection_knum,
      add_filled_polygon, listMin, listMax]
  rw [h]; simp

/-- C3 (amended): on `k_axis = [0, 1, 2, 3, 4]`, `from_freq = 1`,
`to_freq = 3`, `light_line = [0, 0, 4, 0, 0]`, the clipper emits exactly
one polygon, the region `k ∈ [1.25, 2.75]` where the light line rises
above `from_freq`: it enters the gap at `(1.25, 1)`, crosses `to_freq`
at `x = 1.75` and `x = 2.25`, and leaves the gap at `(2.75, 1)` (the
crossing fractions come from `crossing_fraction` on the segments `0→4`
and `4→0`). -/
theorem scenario_a_amended :
    add_band_gap_rectangle [0, 1, 2, 3, 4] 1 3 (some [0, 0, 4, 0, 0]) =
      [[(5/4, 1), (7/4, 3), (9/4, 3), (11/4, 1)]] := by
  norm_num [add_band_gap_rectangle, gap_sweep, gap_step, get_intersection_knum,
    add_filled_polygon, listMin, listMax]

/-- C8: a data table whose row count differs from the k-axis length, or
whose column count is odd, makes `add_continuum_bands` log the
malformed-input warning and return without emitting any polygon and
without touching the data. -/
theorem malformed_continuum_noop (x_data : List ℚ) (rows : List (List ℚ))
    (cols : ℕ) (prevent_overlapping : Bool)
    (h : rows.length ≠ x_data.length ∨ cols % 2 = 1) :
    add_continuum_bands x_data rows cols prevent_overlapping =
      { warned := true, polys := [], data := rows } := by
  have hc : ¬(rows.length = x_data.length) ∨ ¬(cols % 2 = 0) := by
    rcases h with h | h
    · exact Or.inl h
    · exact Or.inr (by omega)
  simp only [add_continuum_bands]
  rw [if_pos hc]

/-- Witness for C8: a one-row table against a two-point k-axis. -/
theorem malformed_continuum_noop_witness :
    add_continuum_bands [0, 1] [[0, 2]] 2 true =
      { warned := true, polys := [], data := [[0, 2]] } :=
  malformed_continuum_noop [0, 1] [[0, 2]] 2 true (Or.inl (by norm_num))

theorem corrected_x_rest_length (rest : List (List ℝ)) :
    ∀ (p : List ℝ) (a : ℝ), (corrected_x_rest p rest a).length = rest.length := by
  induction rest with
  | nil => intro p a; rfl
  | cons v vs ih =>
      intro p a
      simp [corrected_x_rest, ih]

theorem corrected_x_rest_step (rest : List (List ℝ)) :
    ∀ (p : List ℝ) (a : ℝ) (i : ℕ), i < rest.length →
      (a :: corrected_x_rest p rest a).getD (i + 1) 0 =
        (a :: corrected_x_rest p rest a).getD i 0 +
          point_distance ((p :: rest).getD i []) ((p :: rest).getD (i + 1) []) := by
  induction rest with
  | nil => intro p a i h; simp at h
  | cons v vs ih =>
      intro p a i h
      match i with
      | 0 => simp [corrected_x_rest, add_comm]
      | j + 1 =>
          have hj : j < vs.length := by simpa using h
          have := ih v (point_distance p v + a) j hj
          simpa [corrected_x_rest] using this

/-- C9: `_calc_corrected_x_values` drops the magnitude column, starts at
`x[0] = 0` and accumulates the Euclidean distance of consecutive
k-vectors; on `[(0,0,0),(1,0,0),(1,1,0)]` (any magnitude column) it
yields `[0, 1, 2]`. -/
theorem cumulative_distance_mapping (k_data : List (List ℝ)) :
    ((calc_corrected_x_values k_data).length = k_data.length ∧
     (calc_corrected_x_values k_data).getD 0 0 = 0 ∧
     ∀ i, i + 1 < k_data.length →
       (calc_corrected_x_values k_data).getD (i + 1) 0 =
         (calc_corrected_x_values k_data).getD i 0 +
           point_distance ((k_data.map List.dropLast).getD i [])
             ((k_data.map List.dropLast).getD (i + 1) [])) ∧
    calc_corrected_x_values [[0, 0, 0, 0], [1, 0, 0, 9], [1, 1, 0, 9]] =
      [0, 1, 2] := by
  constructor
  · match hk : k_data with
    | [] => refine ⟨rfl, rfl, ?_⟩; intro i h; simp at h
    | r0 :: rest =>
        refine ⟨?_, rfl, ?_⟩
        · simp [calc_corrected_x_values, corrected_x_rest_length]
        · intro i h
          have h2 : i < rest.length := by simpa using h
          have h3 : i < (rest.map List.dropLast).length := by simpa using h2
          have := corrected_x_rest_step (rest.map List.dropLast) r0.dropLast 0 i h3
          simpa [calc_corrected_x_values] using this
  · have d1 : point_distance [(0:ℝ), 0, 0] [1, 0, 0] = 1 := by
      norm_num [point_distance]
    have d2 : point_distance [(1:ℝ), 0, 0] [1, 1, 0] = 1 := by
      norm_num [point_distance]
    norm_num [calc_corrected_x_values, corrected_x_rest, List.dropLast, d1, d2]

/-- Witness for C9: the recurrence applied at `i = 0` of the concrete
k-vector table of scenario B. -/
theorem cumulative_distance_mapping_witness :
    (calc_corrected_x_values [[0, 0, 0, 0], [1, 0, 0, 9], [1, 1, 0, 9]]).getD 1 0 =
      (calc_corrected_x_values [[0, 0, 0, 0], [1, 0, 0, 9], [1, 1, 0, 9]]).getD 0 0 +
        point_distance [0, 0, 0] [1, 0, 0] := by
  have h := ((cumulative_distance_mapping
    [[0, 0, 0, 0], [1, 0, 0, 9], [1, 1, 0, 9]]).1.2.2) 0 (by norm_num)
  simpa [List.dropLast] using h

/-- C5: the concrete two-ribbon overlap of one sample interval
(k-axis `[0, 1]`, ribbon 1 `= (lower [0,0], upper [2,2])`, ribbon 2
`= (lower [3,1], upper [4,4])`, so ribbon 2's lower curve ends 1 unit
below ribbon 1's upper curve): the resolver clamps ribbon 2's lower
bound at `k = 1` up to ribbon 1's upper value 2, records exactly one
IntersectionPoint `(ribbon 1-indexed b = 1, fractional k = 1/2,
frequency 2)`, and ribbon 2's resolved polygon carries the spliced
crossing vertex `(1/2, 2)` with its lower boundary equal to ribbon 1's
upper curve at the overlapping sample. -/
theorem overlap_clipping_scenario :
    conti_resolve 2 [[0, 2, 3, 4], [0, 2, 1, 4]] =
      ([[0, 2, 3, 4], [0, 2, 2, 4]], [(1, 1/2, 2)]) ∧
    (add_continuum_bands [0, 1] [[0, 2, 3, 4], [0, 2, 1, 4]] 4 true).polys =
      [[(0, 0), (1, 0), (1, 2), (0, 2)],
       [(0, 3), (1/2, 2), (1, 2), (1, 4), (0, 4)]] := by
  constructor
  · norm_num [conti_resolve, conti_pass_band, conti_pass_rest, get_intersection,
      row_get, List.range']
  · norm_num [add_continuum_bands, conti_resolve, conti_pass_band, conti_pass_rest,
      conti_lower_walk, get_intersection, row_get, add_filled_polygon, List.range',
      List.range_succ]
    simp

theorem conti_pass_rest_no_overlap (b : ℕ) (rows : List (List ℚ))
    (h : ∀ row ∈ rows, ¬(row_get row (2 * b) < row_get row (2 * b - 1))) :
    ∀ (k : ℕ) (prev_row : List ℚ) (prev_f : ℚ),
      conti_pass_rest b k prev_row rows true prev_f = (rows, []) := by
  induction rows with
  | nil => intro k prev_row prev_f; rfl
  | cons row rest ih =>
      intro k prev_row prev_f
      rw [conti_pass_rest, if_neg (h row (by simp))]
      have := ih (fun r hr => h r (by simp [hr])) (k + 1) row (row_get row (2 * b))
      simp [this]

theorem conti_pass_band_no_overlap (b : ℕ) (rows : List (List ℚ))
    (h : ∀ row ∈ rows, ¬(row_get row (2 * b) < row_get row (2 * b - 1))) :
    conti_pass_band b rows = (rows, []) := by
  cases rows with
  | nil => rfl
  | cons row0 rest =>
      rw [conti_pass_band, if_neg (h row0 (by simp))]
      have := conti_pass_rest_no_overlap b rest (fun r hr => h r (by simp [hr])) 1
        row0 (row_get row0 (2 * b))
      simp [this]

theorem conti_resolve_fold_no_overlap (rows : List (List ℚ)) (numbands : ℕ)
    (h : ∀ row ∈ rows, ∀ b, 1 ≤ b → b < numbands →
      ¬(row_get row (2 * b) < row_get row (2 * b - 1))) :
    ∀ (bs : List ℕ) (ipts : List IPoint), (∀ b ∈ bs, 1 ≤ b ∧ b < numbands) →
      bs.foldl
        (fun acc b =>
          let res := conti_pass_band b acc.1
          (res.1, acc.2 ++ res.2))
        (rows, ipts) = (rows, ipts) := by
  intro bs
  induction bs with
  | nil => intro ipts _; rfl
  | cons b bs ih =>
      intro ipts hb
      have h1 := hb b (by simp)
      have hpass := conti_pass_band_no_overlap b rows
        (fun r hr => h r hr b h1.1 h1.2)
      simp only [List.foldl_cons, hpass, List.append_nil]
      exact ih ipts (fun c hc => hb c (by simp [hc]))

theorem conti_resolve_no_overlap (numbands : ℕ) (rows : List (List ℚ))
    (h : ∀ row ∈ rows, ∀ b, 1 ≤ b → b < numbands →
      ¬(row_get row (2 * b) < row_get row (2 * b - 1))) :
    conti_resolve numbands rows = (rows, []) := by
  rw [conti_resolve]
  exact conti_resolve_fold_no_overlap rows numbands h (List.range' 1 (numbands - 1))
    [] (by
      intro b hb
      have := List.mem_range'_1.mp hb
      omega)

/-- C6: on a well-formed, non-overlapping ribbon stack (each ribbon's
lower curve at or above the previous ribbon's upper curve at every k),
`add_continuum_bands` with overlap prevention leaves the data table
unchanged, so a second run on the same stack yields the identical
polygon list — there is no hidden residual state. -/
theorem overlap_resolution_idempotent (x_data : List ℚ) (rows : List (List ℚ))
    (cols : ℕ) (hlen : rows.length = x_data.length) (hev : cols % 2 = 0)
    (hno : ∀ row ∈ rows, ∀ b, 1 ≤ b → b < cols / 2 →
      row_get row (2 * b - 1) ≤ row_get row (2 * b)) :
    (add_continuum_bands x_data rows cols true).data = rows ∧
    (add_continuum_bands x_data
        (add_continuum_bands x_data rows cols true).data cols true).polys =
      (add_continuum_bands x_data rows cols true).polys := by
  have hres : conti_resolve (cols / 2) rows = (rows, []) := by
    apply conti_resolve_no_overlap
    intro row hrow b h1 h2
    exact not_lt.mpr (hno row hrow b h1 h2)
  have hcond : ¬(¬(rows.length = x_data.length) ∨ ¬(cols % 2 = 0)) := by
    push_neg; exact ⟨hlen, hev⟩
  have hdata : (add_continuum_bands x_data rows cols true).data = rows := by
    simp only [add_continuum_bands]
    rw [if_neg hcond]
    simp [hres]
  exact ⟨hdata, by rw [hdata]⟩

/-- Witness for C6: a two-ribbon stack with ribbon 2 strictly above
ribbon 1 everywhere. -/
theorem overlap_resolution_idempotent_witness :
    (add_continuum_bands [0, 1] [[0, 1, 2, 3], [0, 1, 2, 3]] 4 true).data =
      [[0, 1, 2, 3], [0, 1, 2, 3]] ∧
    (add_continuum_bands [0, 1]
        (add_continuum_bands [0, 1] [[0, 1, 2, 3], [0, 1, 2, 3]] 4 true).data
        4 true).polys =
      (add_continuum_bands [0, 1] [[0, 1, 2, 3], [0, 1, 2, 3]] 4 true).polys := by
  refine overlap_resolution_idempotent [0, 1] [[0, 1, 2, 3], [0, 1, 2, 3]] 4
    (by norm_num) (by norm_num) ?_
  intro row hrow b h1 h2
  have hb : b = 1 := by omega
  subst hb
  fin_cases hrow <;> norm_num [row_get]

/-- The vertex bound of C10: `p` lies inside the k-range `[lo, hi]` and
the frequency band `[ff, tf]`. -/
def InBounds (lo hi ff tf : ℚ) (p : Point) : Prop :=
  lo ≤ p.1 ∧ p.1 ≤ hi ∧ ff ≤ p.2 ∧ p.2 ≤ tf

theorem inb_pair (lo hi ff tf a b : ℚ) (h1 : lo ≤ a) (h2 : a ≤ hi)
    (h3 : ff ≤ b) (h4 : b ≤ tf) : InBounds lo hi ff tf (a, b) :=
  ⟨h1, h2, h3, h4⟩

theorem gik_unit_up (l0 l1 target : ℚ) (h0 : l0 ≤ target) (h1 : target ≤ l1)
    (hlt : l0 < l1) :
    0 ≤ get_intersection_knum l0 l1 target ∧
      get_intersection_knum l0 l1 target ≤ 1 := by
  rw [get_intersection_knum]
  constructor
  · exact div_nonneg (by linarith) (by linarith)
  · rw [div_le_one (by linarith)]; linarith

theorem gik_unit_down (l0 l1 target : ℚ) (h0 : l1 ≤ target) (h1 : target ≤ l0)
    (hlt : l1 < l0) :
    0 ≤ get_intersection_knum l0 l1 target ∧
      get_intersection_knum l0 l1 target ≤ 1 := by
  rw [get_intersection_knum, ← neg_div_neg_eq, neg_sub, neg_sub]
  constructor
  · exact div_nonneg (by linarith) (by linarith)
  · rw [div_le_one (by linarith)]; linarith

theorem cross_in_bounds (lo hi ff tf x0 x1 l0 l1 target : ℚ)
    (hx0 : lo ≤ x0) (hx01 : x0 ≤ x1) (hx1 : x1 ≤ hi)
    (ht : 0 ≤ get_intersection_knum l0 l1 target ∧
      get_intersection_knum l0 l1 target ≤ 1)
    (hf0 : ff ≤ target) (hf1 : target ≤ tf) :
    InBounds lo hi ff tf
      (x0 + (x1 - x0) * get_intersection_knum l0 l1 target, target) := by
  obtain ⟨ht0, ht1⟩ := ht
  have hm0 := mul_nonneg (sub_nonneg.mpr hx01) ht0
  have hm1 := mul_le_of_le_one_right (sub_nonneg.mpr hx01) ht1
  exact ⟨by dsimp only; linarith, by dsimp only; linarith, hf0, hf1⟩

theorem mem_append_one_cases {A : List Point} {q p : Point}
    (hp : p ∈ A ++ [q]) : p ∈ A ∨ p = q := by
  rcases List.mem_append.mp hp with h | h
  · exact Or.inl h
  · exact Or.inr (List.mem_singleton.mp h)

theorem mem_filled {pts : List Point} {poly : Polygon}
    (h : poly ∈ add_filled_polygon pts) : poly = pts := by
  rw [add_filled_polygon] at h
  by_cases he : pts.isEmpty
  · simp [he] at h
  · simp [he] at h; exact h

theorem gap_step_inv (lo hi ff tf x0 l0 x1 l1 : ℚ) (s : GapState)
    (hff : ff ≤ tf) (hx0 : lo ≤ x0) (hx01 : x0 ≤ x1) (hx1 : x1 ≤ hi)
    (hA : s.above = decide (l0 ≥ tf)) (hB : s.below = decide (l0 ≤ ff))
    (hpts : ∀ p ∈ s.points, InBounds lo hi ff tf p)
    (hpolys : ∀ poly ∈ s.polys, ∀ p ∈ poly, InBounds lo hi ff tf p) :
    (gap_step ff tf x0 l0 x1 l1 s).above = decide (l1 ≥ tf) ∧
    (gap_step ff tf x0 l0 x1 l1 s).below = decide (l1 ≤ ff) ∧
    (∀ p ∈ (gap_step ff tf x0 l0 x1 l1 s).points, InBounds lo hi ff tf p) ∧
    (∀ poly ∈ (gap_step ff tf x0 l0 x1 l1 s).polys, ∀ p ∈ poly,
      InBounds lo hi ff tf p) := by
  have hx0' : lo ≤ x1 := le_trans hx0 hx01
  refine ⟨?_, ?_, ?_, ?_⟩
  · simp only [gap_step]; split_ifs <;> rfl
  · simp only [gap_step]; split_ifs <;> rfl
  · intro p hp
    simp only [gap_step] at hp
    split_ifs at hp with h1 h2 h3 h4 h5 h6 h7 h8 h9 h10 h11
    · -- L1: in band, coming down across to_freq
      simp only [hA, hB, Bool.and_eq_true, Bool.not_eq_true', decide_eq_true_eq,
        decide_eq_false_iff_not, ge_iff_le] at h1 h2
      dsimp only at hp
      rcases mem_append_one_cases hp with hp | rfl
      · rcases mem_append_one_cases hp with hp | rfl
        · exact hpts p hp
        · exact cross_in_bounds lo hi ff tf x0 x1 l0 l1 tf hx0 hx01 hx1
            (gik_unit_down l0 l1 tf (le_of_lt (not_le.mp h1.1)) h2.1
              (by have := not_le.mp h1.1; linarith)) hff le_rfl
      · exact inb_pair lo hi ff tf x1 l1 hx0' hx1
          (le_of_lt (not_le.mp h1.2)) (le_of_lt (not_le.mp h1.1))
    · -- L2: in band, coming up across from_freq
      simp only [hA, hB, Bool.and_eq_true, Bool.not_eq_true', decide_eq_true_eq,
        decide_eq_false_iff_not, ge_iff_le] at h1 h3
      dsimp only at hp
      rcases mem_append_one_cases hp with hp | rfl
      · rcases mem_append_one_cases hp with hp | rfl
        · exact hpts p hp
        · exact cross_in_bounds lo hi ff tf x0 x1 l0 l1 ff hx0 hx01 hx1
            (gik_unit_up l0 l1 ff h3.1 (le_of_lt (not_le.mp h1.2))
              (by have := not_le.mp h1.2; linarith)) le_rfl hff
      · exact inb_pair lo hi ff tf x1 l1 hx0' hx1
          (le_of_lt (not_le.mp h1.2)) (le_of_lt (not_le.mp h1.1))
    · -- L3: in band, staying inside
      simp only [hA, hB, Bool.and_eq_true, Bool.not_eq_true', decide_eq_true_eq,
        decide_eq_false_iff_not, ge_iff_le] at h1
      dsimp only at hp
      rcases mem_append_one_cases hp with hp | rfl
      · exact hpts p hp
      · exact inb_pair lo hi ff tf x1 l1 hx0' hx1
          (le_of_lt (not_le.mp h1.2)) (le_of_lt (not_le.mp h1.1))
    · -- L4: contradictory (entering above while also leaving above)
      simp only [Bool.and_eq_true, Bool.not_eq_true'] at h4 h5
      rw [h4.1] at h5; simp at h5
    · -- L5: entering above after coming up across from_freq
      simp only [hA, hB, Bool.and_eq_true, Bool.not_eq_true', decide_eq_true_eq,
        decide_eq_false_iff_not, ge_iff_le] at h4 h6
      dsimp only at hp
      rcases mem_append_one_cases hp with hp | rfl
      · rcases mem_append_one_cases hp with hp | rfl
        · exact hpts p hp
        · exact cross_in_bounds lo hi ff tf x0 x1 l0 l1 ff hx0 hx01 hx1
            (gik_unit_up l0 l1 ff h6.1 (le_of_lt (not_le.mp h6.2))
              (by have := not_le.mp h6.2; linarith)) le_rfl hff
      · exact cross_in_bounds lo hi ff tf x0 x1 l0 l1 tf hx0 hx01 hx1
          (gik_unit_up l0 l1 tf (le_of_lt (not_le.mp h4.1)) h4.2
            (by have := not_le.mp h4.1; linarith)) hff le_rfl
    · -- L6: entering above directly
      simp only [hA, hB, Bool.and_eq_true, Bool.not_eq_true', decide_eq_true_eq,
        decide_eq_false_iff_not, ge_iff_le] at h4
      dsimp only at hp
      rcases mem_append_one_cases hp with hp | rfl
      · exact hpts p hp
      · exact cross_in_bounds lo hi ff tf x0 x1 l0 l1 tf hx0 hx01 hx1
          (gik_unit_up l0 l1 tf (le_of_lt (not_le.mp h4.1)) h4.2
            (by have := not_le.mp h4.1; linarith)) hff le_rfl
    · -- L7: closing below after coming down across to_freq: points reset
      dsimp only at hp
      simp at hp
    · -- L8: contradictory (closing below while also exiting below)
      simp only [Bool.and_eq_true, Bool.not_eq_true'] at h7 h9
      rw [h7.1] at h9; simp at h9
    · -- L9: closing below directly: points reset
      dsimp only at hp
      simp at hp
    · -- L10: leaving above while already below the band bottom
      simp only [hA, hB, Bool.and_eq_true, Bool.not_eq_true', decide_eq_true_eq,
        decide_eq_false_iff_not, ge_iff_le] at h10
      dsimp only at hp
      rcases mem_append_one_cases hp with hp | rfl
      · exact hpts p hp
      · exact cross_in_bounds lo hi ff tf x0 x1 l0 l1 tf hx0 hx01 hx1
          (gik_unit_down l0 l1 tf (le_of_lt (not_le.mp h10.2)) h10.1
            (by have := not_le.mp h10.2; linarith)) hff le_rfl
    · -- L11: leaving below while already above the band top
      simp only [hA, hB, Bool.and_eq_true, Bool.not_eq_true', decide_eq_true_eq,
        decide_eq_false_iff_not, ge_iff_le] at h11
      dsimp only at hp
      rcases mem_append_one_cases hp with hp | rfl
      · exact hpts p hp
      · exact cross_in_bounds lo hi ff tf x0 x1 l0 l1 ff hx0 hx01 hx1
          (gik_unit_up l0 l1 ff h11.1 (le_of_lt (not_le.mp h11.2))
            (by have := not_le.mp h11.2; linarith)) le_rfl hff
    · -- L12: no transition
      dsimp only at hp
      exact hpts p hp
  · intro poly hpoly
    simp only [gap_step] at hpoly
    split_ifs at hpoly with h1 h2 h3 h4 h5 h6 h7 h8 h9 h10 h11
    · dsimp only at hpoly; exact hpolys poly hpoly
    · dsimp only at hpoly; exact hpolys poly hpoly
    · dsimp only at hpoly; exact hpolys poly hpoly
    · simp only [Bool.and_eq_true, Bool.not_eq_true'] at h4 h5
      rw [h4.1] at h5; simp at h5
    · dsimp only at hpoly; exact hpolys poly hpoly
    · dsimp only at hpoly; exact hpolys poly hpoly
    · -- L7: emit the polygon closed by the from_freq crossing
      simp only [hA, hB, Bool.and_eq_true, Bool.not_eq_true', decide_eq_true_eq,
        decide_eq_false_iff_not, ge_iff_le] at h7 h8
      dsimp only at hpoly
      rcases List.mem_append.mp hpoly with h | h
      · exact hpolys poly h
      · rw [mem_filled h]
        intro p hp
        rcases mem_append_one_cases hp with hp | rfl
        · rcases mem_append_one_cases hp with hp | rfl
          · exact hpts p hp
          · exact cross_in_bounds lo hi ff tf x0 x1 l0 l1 tf hx0 hx01 hx1
              (gik_unit_down l0 l1 tf (le_of_lt (not_le.mp h8.2)) h8.1
                (by have := not_le.mp h8.2; linarith)) hff le_rfl
        · exact cross_in_bounds lo hi ff tf x0 x1 l0 l1 ff hx0 hx01 hx1
            (gik_unit_down l0 l1 ff h7.2 (le_of_lt (not_le.mp h7.1))
              (by have := not_le.mp h7.1; linarith)) le_rfl hff
    · simp only [Bool.and_eq_true, Bool.not_eq_true'] at h7 h9
      rw [h7.1] at h9; simp at h9
    · -- L9: emit the polygon closed by the from_freq crossing
      simp only [hA, hB, Bool.and_eq_true, Bool.not_eq_true', decide_eq_true_eq,
        decide_eq_false_iff_not, ge_iff_le] at h7
      dsimp only at hpoly
      rcases List.mem_append.mp hpoly with h | h
      · exact hpolys poly h
      · rw [mem_filled h]
        intro p hp
        rcases mem_append_one_cases hp with hp | rfl
        · exact hpts p hp
        · exact cross_in_bounds lo hi ff tf x0 x1 l0 l1 ff hx0 hx01 hx1
            (gik_unit_down l0 l1 ff h7.2 (le_of_lt (not_le.mp h7.1))
              (by have := not_le.mp h7.1; linarith)) le_rfl hff
    · dsimp only at hpoly; exact hpolys poly hpoly
    · dsimp only at hpoly; exact hpolys poly hpoly
    · dsimp only at hpoly; exact hpolys poly hpoly

theorem foldl_min_le (xs : List ℚ) : ∀ a : ℚ, xs.foldl min a ≤ a := by
  induction xs with
  | nil => intro a; exact le_refl a
  | cons y ys ih => intro a; exact le_trans (ih (min a y)) (min_le_left a y)

theorem foldl_min_le_mem (xs : List ℚ) :
    ∀ a y : ℚ, y ∈ xs → xs.foldl min a ≤ y := by
  induction xs with
  | nil => intro a y h; simp at h
  | cons z zs ih =>
      intro a y h
      rcases List.mem_cons.mp h with rfl | h
      · exact le_trans (foldl_min_le zs (min a y)) (min_le_right a y)
      · exact ih (min a z) y h

theorem listMin_le_mem (x : ℚ) (xs : List ℚ) (y : ℚ) (h : y ∈ x :: xs) :
    listMin (x :: xs) ≤ y := by
  rcases List.mem_cons.mp h with rfl | h
  · exact foldl_min_le xs y
  · exact foldl_min_le_mem xs x y h

theorem le_foldl_max (xs : List ℚ) : ∀ a : ℚ, a ≤ xs.foldl max a := by
  induction xs with
  | nil => intro a; exact le_refl a
  | cons y ys ih => intro a; exact le_trans (le_max_left a y) (ih (max a y))

theorem mem_le_foldl_max (xs : List ℚ) :
    ∀ a y : ℚ, y ∈ xs → y ≤ xs.foldl max a := by
  induction xs with
  | nil => intro a y h; simp at h
  | cons z zs ih =>
      intro a y h
      rcases List.mem_cons.mp h with rfl | h
      · exact le_trans (le_max_right a y) (le_foldl_max zs (max a y))
      · exact ih (max a z) y h

theorem mem_le_listMax (x : ℚ) (xs : List ℚ) (y : ℚ) (h : y ∈ x :: xs) :
    y ≤ listMax (x :: xs) := by
  rcases List.mem_cons.mp h with rfl | h
  · exact le_foldl_max xs y
  · exact mem_le_foldl_max xs x y h

theorem gap_sweep_inv (lo hi ff tf : ℚ) (hff : ff ≤ tf) (rest : List (ℚ × ℚ)) :
    ∀ (x0 l0 : ℚ) (s : GapState),
      lo ≤ x0 → x0 ≤ hi →
      List.Chain' (· ≤ ·) (x0 :: rest.map Prod.fst) →
      (∀ q ∈ rest, q.1 ≤ hi) →
      s.above = decide (l0 ≥ tf) → s.below = decide (l0 ≤ ff) →
      (∀ p ∈ s.points, InBounds lo hi ff tf p) →
      (∀ poly ∈ s.polys, ∀ p ∈ poly, InBounds lo hi ff tf p) →
      (∀ p ∈ (gap_sweep ff tf x0 l0 rest s).points, InBounds lo hi ff tf p) ∧
      (∀ poly ∈ (gap_sweep ff tf x0 l0 rest s).polys, ∀ p ∈ poly,
        InBounds lo hi ff tf p) := by
  induction rest with
  | nil => intro x0 l0 s _ _ _ _ _ _ hpts hpolys; exact ⟨hpts, hpolys⟩
  | cons q qs ih =>
      intro x0 l0 s hx0 hx0hi hchain hhi hA hB hpts hpolys
      obtain ⟨x1, l1⟩ := q
      simp only [List.map_cons] at hchain
      have hx01 : x0 ≤ x1 := (List.chain'_cons.mp hchain).1
      have hx1hi : x1 ≤ hi := hhi (x1, l1) (by simp)
      have hstep := gap_step_inv lo hi ff tf x0 l0 x1 l1 s hff hx0 hx01 hx1hi
        hA hB hpts hpolys
      rw [gap_sweep]
      exact ih x1 l1 _ (le_trans hx0 hx01) hx1hi (List.chain'_cons.mp hchain).2
        (fun q hq => hhi q (by simp [hq])) hstep.1 hstep.2.1 hstep.2.2.1
        hstep.2.2.2

/-- C10: every vertex `(x, y)` of every polygon the light-line branch of
`add_band_gap_rectangle` emits satisfies
`from_freq ≤ y ≤ to_freq` and `min(k_axis) ≤ x ≤ max(k_axis)`, for any
non-decreasing k-axis, any aligned light line and any
`0 ≤ from_freq ≤ to_freq`. -/
theorem gap_vertex_bounds (x_data ll : List ℚ)
    (hlen : x_data.length = ll.length)
    (hsort : List.Chain' (· ≤ ·) x_data) (from_freq to_freq : ℚ)
    (h0 : 0 ≤ from_freq) (hft : from_freq ≤ to_freq) :
    ∀ poly ∈ add_band_gap_rectangle x_data from_freq to_freq (some ll),
      ∀ p ∈ poly,
        InBounds (listMin x_data) (listMax x_data) from_freq to_freq p := by
  by_cases hcond : from_freq < 0 ∨ to_freq ≤ 0
  · simp [add_band_gap_rectangle, hcond]
  · cases x_data with
    | nil =>
        obtain rfl : ll = [] := by
          cases ll with
          | nil => rfl
          | cons l ls => simp at hlen
        simp [add_band_gap_rectangle, hcond]
    | cons x xs =>
        cases ll with
        | nil => simp at hlen
        | cons l ls =>
            have hlen2 : xs.length = ls.length := by simpa using hlen
            have hlo_x : listMin (x :: xs) ≤ x := listMin_le_mem x xs x (by simp)
            have hx_hi : x ≤ listMax (x :: xs) := mem_le_listMax x xs x (by simp)
            have hchain : List.Chain' (· ≤ ·) (x :: (xs.zip ls).map Prod.fst) := by
              rw [List.map_fst_zip xs ls (le_of_eq hlen2)]
              exact hsort
            have hhi : ∀ q ∈ xs.zip ls, q.1 ≤ listMax (x :: xs) := by
              intro q hq
              exact mem_le_listMax x xs q.1 (by simp [(List.of_mem_zip hq).1])
            have hpts0 : ∀ p ∈ (if decide (l ≤ from_freq) then ([] : List Point)
                else [(x, from_freq),
                  if decide (l ≥ to_freq) then (x, to_freq) else (x, l)]),
                InBounds (listMin (x :: xs)) (listMax (x :: xs))
                  from_freq to_freq p := by
              by_cases hb : l ≤ from_freq
              · simp [hb]
              · intro p hp
                simp only [hb, decide_False, if_false] at hp
                rcases List.mem_cons.mp hp with rfl | hp
                · exact inb_pair _ _ _ _ _ _ hlo_x hx_hi le_rfl hft
                · rcases List.mem_cons.mp hp with rfl | hp
                  · by_cases ha : to_freq ≤ l
                    · simp only [ge_iff_le, ha, decide_True, if_true]
                      exact inb_pair _ _ _ _ _ _ hlo_x hx_hi hft le_rfl
                    · simp only [ge_iff_le, ha, decide_False, if_false]
                      exact inb_pair _ _ _ _ _ _ hlo_x hx_hi
                        (le_of_lt (not_le.mp hb)) (le_of_lt (not_le.mp ha))
                  · simp at hp
            have hsw := gap_sweep_inv (listMin (x :: xs)) (listMax (x :: xs))
              from_freq to_freq hft (xs.zip ls) x l
              { above := decide (l ≥ to_freq), below := decide (l ≤ from_freq),
                points := if decide (l ≤ from_freq) then []
                  else [(x, from_freq),
                    if decide (l ≥ to_freq) then (x, to_freq) else (x, l)],
                polys := [] }
              hlo_x hx_hi hchain hhi rfl rfl hpts0 (by simp)
            have hlo_hi : listMin (x :: xs) ≤ listMax (x :: xs) :=
              le_trans hlo_x hx_hi
            intro poly hpoly
            simp only [add_band_gap_rectangle, if_neg hcond] at hpoly
            set s2 := gap_sweep from_freq to_freq x l (xs.zip ls)
              { above := decide (l ≥ to_freq), below := decide (l ≤ from_freq),
                points := if decide (l ≤ from_freq) then []
                  else [(x, from_freq),
                    if decide (l ≥ to_freq) then (x, to_freq) else (x, l)],
                polys := [] } with hs2def
            have hpts1 : ∀ p ∈ (if s2.above then
                s2.points ++ [(listMax (x :: xs), to_freq)] else s2.points),
                InBounds (listMin (x :: xs)) (listMax (x :: xs))
                  from_freq to_freq p := by
              by_cases hA2 : s2.above = true
              · rw [if_pos hA2]
                intro p hp
                rcases mem_append_one_cases hp with hp | rfl
                · exact hsw.1 p hp
                · exact inb_pair _ _ _ _ _ _ hlo_hi le_rfl hft le_rfl
              · rw [if_neg hA2]
                exact hsw.1
            rcases List.mem_append.mp hpoly with h | h
            · exact hsw.2 poly h
            · intro p hp
              rw [mem_filled h] at hp
              by_cases hB2 : s2.below = true
              · rw [if_pos hB2] at hp
                exact hpts1 p hp
              · rw [if_neg hB2] at hp
                rcases mem_append_one_cases hp with hp | rfl
                · exact hpts1 p hp
                · exact inb_pair _ _ _ _ _ _ hlo_hi le_rfl le_rfl hft

/-- Witness for C10: on scenario A's input, the emitted vertex
`(5/4, 1)` lies within the gap band and the k-range. -/
theorem gap_vertex_bounds_witness :
    InBounds (listMin [0, 1, 2, 3, 4]) (listMax [0, 1, 2, 3, 4]) 1 3
      (5/4, 1) := by
  have hmem : [(5/4, 1), (7/4, 3), (9/4, 3), (11/4, 1)] ∈
      add_band_gap_rectangle [0, 1, 2, 3, 4] 1 3 (some [0, 0, 4, 0, 0]) := by
    have h : add_band_gap_rectangle [0, 1, 2, 3, 4] 1 3 (some [0, 0, 4, 0, 0]) =
        [[(5/4, 1), (7/4, 3), (9/4, 3), (11/4, 1)]] := by
      norm_num [add_band_gap_rectangle, gap_sweep, gap_step, get_intersection_knum,
        add_filled_polygon, listMin, listMax]
    rw [h]; simp
  exact gap_vertex_bounds [0, 1, 2, 3, 4] [0, 0, 4, 0, 0] rfl
    (by norm_num [List.chain'_cons, List.chain'_singleton]) 1 3 (by norm_num)
    (by norm_num) [(5/4, 1), (7/4, 3), (9/4, 3), (11/4, 1)] hmem (5/4, 1)
    (by simp)
